import Mathlib

/-!
Verification development for the Invoice Extraction & Matching Engine of the
Inventory-Tracker-App repository (src/ocr_module.py).

The Python source is shallowly embedded below:
  - Python strings are Lean `String`s (the invoices handled are ASCII);
    `str.lower()`, `str.strip()`, `str.split()`, the `in` substring test and
    `str.split(sep, 1)` are modelled char-for-char (`pyLower`, `pyStrip`, ...).
  - Python floats carry only small decimal literals and exact comparisons in
    this code, so they are modelled as rationals.
  - `re.search` is modelled by a backtracking matcher over a regex AST with
    Python preference order (leftmost position, left alternative first,
    greedy quantifiers), enough for the regexes appearing in the source.
  - `list.sort(key=..., reverse=True)` is Python timsort, a stable sort; it is
    modelled by a stable descending insertion sort.
-/

namespace OcrModule

/-! ## Python string primitives -/

/-- Python whitespace characters (`str.strip`, `str.split()` with no args,
regex class backslash-s). -/
def pyIsSpace (c : Char) : Bool :=
  c == ' ' || c == '\t' || c == '\n' || c == '\r' || c == '\x0b' || c == '\x0c'

/-- `str.lower()` (ASCII model). -/
def pyLower (s : String) : String := s.map Char.toLower

/-- `str.strip()` on a character list. -/
def pyStripL (l : List Char) : List Char :=
  ((l.dropWhile pyIsSpace).reverse.dropWhile pyIsSpace).reverse

/-- `str.strip()`. -/
def pyStrip (s : String) : String := String.mk (pyStripL s.toList)

/-- Does the second list start with the first one? -/
def startsWithL : List Char → List Char → Bool
  | [], _ => true
  | _ :: _, [] => false
  | a :: as, b :: bs => a == b && startsWithL as bs

/-- Python substring containment `needle in hay` on character lists. -/
def pyInL : List Char → List Char → Bool
  | n, [] => n.isEmpty
  | n, c :: t => startsWithL n (c :: t) || pyInL n t

/-- Python substring containment `needle in hay`. -/
def pyIn (needle hay : String) : Bool := pyInL needle.toList hay.toList

/-- Helper for `str.split()` with no arguments: accumulate the current word
(reversed) while walking the characters. -/
def wordsAux : List Char → List Char → List (List Char)
  | [], acc => if acc.isEmpty then [] else [acc.reverse]
  | c :: t, acc =>
    if pyIsSpace c then
      if acc.isEmpty then wordsAux t [] else acc.reverse :: wordsAux t []
    else wordsAux t (c :: acc)

/-- `str.split()` with no arguments: split on whitespace runs, dropping
empty pieces. -/
def pySplitWs (s : String) : List String := (wordsAux s.toList []).map String.mk

/-- `str.split(sep, 1)` on character lists, for a non-empty separator:
`some (before, after)` at the first occurrence, `none` when the separator
does not occur. -/
def splitOnceL (sep : List Char) : List Char → Option (List Char × List Char)
  | [] => none
  | c :: t =>
    if startsWithL sep (c :: t) then some ([], (c :: t).drop sep.length)
    else (splitOnceL sep t).map (fun p => (c :: p.1, p.2))

/-- `str.split(sep, 1)` for a non-empty separator. -/
def pySplitOnce (sep s : String) : Option (String × String) :=
  (splitOnceL sep.toList s.toList).map (fun p => (String.mk p.1, String.mk p.2))

/-- `str.isdigit()` on a character list (ASCII model). -/
def isdigitL (l : List Char) : Bool := !l.isEmpty && l.all Char.isDigit

/-! ## The matcher (`match_items_to_inventory`, src/ocr_module.py lines 735-787)

The matcher reads only the `name` field of a potential item and the
`id`/`name` fields of an inventory item, so only those fields are modelled. -/

structure PotItem where
  name : String
deriving DecidableEq, Repr

structure InvItem where
  id : ℕ
  name : String
deriving DecidableEq, Repr

structure MatchEntry where
  id : ℕ
  name : String
  score : ℚ
deriving DecidableEq, Repr

/-- The similarity score of one (potential, inventory) name pair, both already
lowercased by the caller: exact equality gives 1.0, substring containment in
either direction gives 0.8, otherwise the word-overlap ratio
`len(common) / max(len(pw), len(iw))` (0 when there is no common word). -/
def simScore (pn inn : String) : ℚ :=
  if pn = inn then 1
  else if pyIn pn inn || pyIn inn pn then 4/5
  else
    let pw := (pySplitWs pn).toFinset
    let iw := (pySplitWs inn).toFinset
    let cw := pw ∩ iw
    if cw = ∅ then 0 else (cw.card : ℚ) / ((max pw.card iw.card : ℕ) : ℚ)

/-- One step of the best-match fold: keep the incumbent unless the new
inventory item scores strictly higher (`if score > best_score`). -/
def bestStep (pn : String) (acc : Option InvItem × ℚ) (it : InvItem) :
    Option InvItem × ℚ :=
  let s := simScore pn (pyLower it.name)
  if acc.2 < s then (some it, s) else acc

/-- The inner loop of the matcher: best match and best score over the
inventory, starting from `(None, 0)`. -/
def bestOf (pn : String) (inv : List InvItem) : Option InvItem × ℚ :=
  inv.foldl (bestStep pn) (none, 0)

/-- The per-candidate part of the matcher: an entry `{id, name, score}` is
produced only when the best score reaches the 0.5 threshold
(`if best_score >= 0.5`).  The `none` fallback in the inner match is
unreachable there, since a best score at least 0.5 forces a recorded best
match (Python would have crashed on `None['id']` otherwise). -/
def matchOne (p : PotItem) (inv : List InvItem) : Option MatchEntry :=
  let pn := pyLower p.name
  let b := bestOf pn inv
  if (1 : ℚ)/2 ≤ b.2 then
    match b.1 with
    | some m => some ⟨m.id, m.name, b.2⟩
    | none => none
  else none

/-- `match_items_to_inventory(potential_items, inventory_items)`: a dict
mapping candidate indices to match entries, modelled as an association list in
index order. -/
def match_items_to_inventory (pots : List PotItem) (inv : List InvItem) :
    List (ℕ × MatchEntry) :=
  pots.enum.filterMap (fun ip => (matchOne ip.2 inv).map (fun e => (ip.1, e)))

/-! ## A small regex engine for the patterns of src/ocr_module.py

`re.search` semantics for the fragment the source uses: leftmost starting
position, left alternative preferred, greedy quantifiers with backtracking,
numbered capture groups, and the start anchor.  Bounded repetitions and plus
and question-mark quantifiers of the source patterns are pre-expanded into
this fragment when the patterns are written down below. -/

inductive Re where
  | eps : Re
  | pred : (Char → Bool) → Re
  | cat : Re → Re → Re
  | alt : Re → Re → Re
  | star : Re → Re
  | group : ℕ → Re → Re
  | bol : Re

/-- Capture environment: group number with the captured characters. -/
abbrev Caps := List (ℕ × List Char)

/-- A regex match: start position, matched substring, captures. -/
structure RMatch where
  startPos : ℕ
  matched : List Char
  caps : Caps
deriving Repr

/-- Continuations receive the remaining input, the absolute position and the
captures collected so far. -/
abbrev MCont := List Char → ℕ → Caps → Option RMatch

/-- One fuel level of the backtracking matcher: structural on the regex, with
`next` re-entering a star after an iteration that consumed input (Python does
not repeat an empty match, hence the `p < p'` guard; every starred
subexpression in the source consumes input anyway). -/
def mcore (next : Re → MCont → MCont) : Re → MCont → MCont
  | .eps, k => k
  | .pred f, k => fun s p caps =>
    match s with
    | [] => none
    | c :: cs => if f c then k cs (p + 1) caps else none
  | .cat r1 r2, k => mcore next r1 (mcore next r2 k)
  | .alt r1 r2, k => fun s p caps =>
    match mcore next r1 k s p caps with
    | some m => some m
    | none => mcore next r2 k s p caps
  | .star r, k => fun s p caps =>
    match mcore next r
        (fun s' p' c' => if p < p' then next (.star r) k s' p' c' else none)
        s p caps with
    | some m => some m
    | none => k s p caps
  | .group n r, k => fun s p caps =>
    mcore next r (fun s' p' c' => k s' p' ((n, s.take (p' - p)) :: c')) s p caps
  | .bol, k => fun s p caps => if p = 0 then k s p caps else none

/-- Fuelled matcher; the fuel only bounds star re-entries, each of which has
consumed at least one character, so `length + 1` fuel is always enough. -/
def mmatch : ℕ → Re → MCont → MCont
  | 0 => fun _ _ _ _ _ => none
  | fuel + 1 => mcore (mmatch fuel)

/-- Try the match at the current position, else advance one character
(leftmost-match search). -/
def searchFrom (fuel : ℕ) (re : Re) : List Char → ℕ → Option RMatch
  | s, p =>
    match mmatch fuel re (fun _ p' caps => some ⟨p, s.take (p' - p), caps⟩) s p [] with
    | some m => some m
    | none =>
      match s with
      | [] => none
      | _ :: t => searchFrom fuel re t (p + 1)

/-- `re.search(re, s)`: the leftmost match, or `None`. -/
def reSearch (re : Re) (s : List Char) : Option RMatch :=
  searchFrom (s.length + 1) re s 0

/-- `match.group(n)` for the patterns here: each group is captured at most
once along the successful branch. -/
def RMatch.groupN (m : RMatch) (n : ℕ) : Option (List Char) :=
  m.caps.lookup n

/-! ### Regex construction helpers, mirroring the source pattern texts -/

/-- A literal character; `ci` = compiled with `re.IGNORECASE`. -/
def rLit (ci : Bool) (c : Char) : Re :=
  .pred (fun x => if ci then x.toLower == c.toLower else x == c)

/-- A literal string. -/
def rStr (ci : Bool) (s : String) : Re :=
  s.toList.foldr (fun c acc => .cat (rLit ci c) acc) .eps

/-- An alternation of literal words, tried left to right as in the source. -/
def rAlts (ci : Bool) (ws : List String) : Re :=
  match ws with
  | [] => .eps
  | [w] => rStr ci w
  | w :: rest => .alt (rStr ci w) (rAlts ci rest)

/-- Backslash-d. -/
def rD : Re := .pred Char.isDigit

/-- Backslash-s. -/
def rWs : Re := .pred pyIsSpace

/-- `r?` (greedy). -/
def rOpt (r : Re) : Re := .alt r .eps

/-- `r+` (greedy). -/
def rPlus (r : Re) : Re := .cat r (.star r)

/-- `r{n}`: n-fold concatenation. -/
def rRep (r : Re) : ℕ → Re
  | 0 => .eps
  | n + 1 => .cat r (rRep r n)

/-- Concatenation of a list of regexes. -/
def rCats (rs : List Re) : Re := rs.foldr .cat .eps

/-! ## Keyword lists (src/ocr_module.py lines 47-72) -/

def ITEM_KEYWORDS : List String :=
  ["item", "product", "description", "qty", "quantity", "unit", "price",
   "amount", "total", "subtotal", "each", "ea", "pcs", "pieces", "order"]

def RESTAURANT_ITEM_KEYWORDS : List String :=
  ["food", "beverage", "drink", "meal", "appetizer", "entree", "dessert",
   "side", "sauce", "topping", "ingredient", "produce", "meat", "dairy",
   "seafood", "vegetable", "fruit", "grain", "spice", "herb", "oil"]

def NON_ITEM_KEYWORDS : List String :=
  ["invoice", "bill", "receipt", "date", "time", "customer", "address",
   "phone", "email", "tax", "vat", "discount", "shipping", "handling",
   "payment", "method", "card", "cash", "check", "balance", "due", "paid",
   "thank", "you", "return", "policy", "warranty", "terms", "conditions",
   "street", "avenue", "road", "suite", "apt", "sky #", "tel", "fax"]

def DEFINITE_NON_ITEM_KEYWORDS : List String :=
  ["www", "http", ".com", ".net", ".org", "@", "tel:", "fax:", "page",
   "of", "invoice#", "order#", "customer#", "account#", "ref#", "po#"]

/-! ## The concrete regexes of the source -/

/-- The class `[-.` backslash-s `]` of the phone pattern. -/
def sepCls : Re := .pred (fun c => c == '-' || c == '.' || pyIsSpace c)

/-- Phone pattern (line 436). -/
def phoneRe : Re :=
  rCats [rOpt (rLit false '('), rRep rD 3, rOpt (rLit false ')'), rOpt sepCls,
         rRep rD 3, rOpt sepCls, rRep rD 4]

/-- The class `[A-Za-z` backslash-s `]` of the address pattern. -/
def alphaWsCls : Re := .pred (fun c => c.isAlpha || pyIsSpace c)

/-- Street-address pattern (line 437), compiled with IGNORECASE. -/
def addressRe : Re :=
  rCats [rPlus rD, rPlus rWs, rPlus alphaWsCls,
         rAlts true ["street", "st", "avenue", "ave", "road", "rd",
                     "boulevard", "blvd", "lane", "ln", "drive", "dr",
                     "court", "ct", "plaza", "plz", "square", "sq"]]

/-- `PRICE_PATTERN` (line 75): optional dollar sign, optional whitespace, then
a captured 1-3 digit group with optional thousands groups and optional cents. -/
def priceRe : Re :=
  rCats [rOpt (rLit false '$'), .star rWs,
         .group 1 (rCats
           [.cat rD (rOpt (.cat rD (rOpt rD))),
            .star (.cat (rLit false ',') (rRep rD 3)),
            rOpt (.cat (rLit false '.') (rRep rD 2))])]

/-- Quantity-plus-unit shape used by the line filter (line 466), IGNORECASE. -/
def filterUnitRe : Re :=
  rCats [rPlus rD, .star rWs,
         rAlts true ["kg", "g", "lb", "oz", "ml", "l", "pcs", "ea", "each",
                     "pack", "bottle", "jar", "can", "bag"]]

/-- The name character class of the restaurant patterns (letters, digits,
whitespace, hyphen, apostrophe, double quote, ampersand, comma, period). -/
def nameCls : Re :=
  .pred (fun c => c.isAlpha || c.isDigit || pyIsSpace c || c == '-' ||
    c == '\'' || c == '"' || c == '&' || c == ',' || c == '.')

/-- `quantity_pattern` (line 505) as the capture group numbered `g`. -/
def qtyGrp (g : ℕ) : Re :=
  .group g (.cat (rPlus rD) (rOpt (.cat (rLit false '.') (rPlus rD))))

/-- `unit_pattern` (line 506), the alternatives in source order. -/
def unitAltsRe : Re :=
  rAlts true ["ea", "pcs", "kg", "lb", "g", "oz", "ml", "l", "box", "case",
              "pack", "bottle", "jar", "can", "bag", "each", "piece", "pound",
              "ounce", "gallon", "quart", "dozen", "dz"]

/-- Pattern 1: "Item Name x Quantity". -/
def pat1 : Re :=
  rCats [.group 1 (rPlus nameCls), .star rWs, rLit true 'x', .star rWs, qtyGrp 2]

/-- Pattern 2: "Quantity x Item Name". -/
def pat2 : Re :=
  rCats [qtyGrp 1, .star rWs, rLit true 'x', .star rWs, .group 2 (rPlus nameCls)]

/-- Pattern 3: "Item Name - dollar Price". -/
def pat3 : Re :=
  rCats [.group 1 (rPlus nameCls), .star rWs, rLit false '-', .star rWs,
         rLit false '$', rPlus rD, rLit false '.', rPlus rD]

/-- Pattern 4: "Item Name dollar Price". -/
def pat4 : Re :=
  rCats [.group 1 (rPlus nameCls), rPlus rWs, rLit false '$', rPlus rD,
         rLit false '.', rPlus rD]

/-- Pattern 5: "Item Name Quantity [Unit]". -/
def pat5 : Re :=
  rCats [.group 1 (rPlus nameCls), rPlus rWs, qtyGrp 2, .star rWs,
         rOpt (.group 3 unitAltsRe)]

/-- Pattern 6: numbered item "N. Item Name", anchored at line start. -/
def pat6 : Re :=
  rCats [.bol, .star rWs, rPlus rD, rLit false '.', rPlus rWs,
         .group 1 (rPlus nameCls)]

/-! ## `parse_invoice_items` (src/ocr_module.py lines 472-668) -/

structure CandidateItem where
  name : String
  quantity : ℚ
  unit : String
  vendor : String
  price : Option String
  confidence : ℚ
deriving DecidableEq, Repr

/-- `float(token)` for the numeric tokens matched by the source regexes
(digits with an optional decimal part). -/
def digitsVal (l : List Char) : ℕ := l.foldl (fun a c => 10 * a + (c.toNat - 48)) 0

def pyFloatL (l : List Char) : ℚ :=
  let ip := l.takeWhile Char.isDigit
  match l.drop ip.length with
  | '.' :: fr => (digitsVal ip : ℚ) + (digitsVal fr : ℚ) / ((10 : ℚ) ^ fr.length)
  | _ => (digitsVal ip : ℚ)

def pyFloat (s : String) : ℚ := pyFloatL s.toList

/-- `re.sub` of a whitespace run by a single space followed by `strip()`
equals joining the whitespace-separated words with single spaces. -/
def collapseAndStrip (l : List Char) : List Char :=
  List.intercalate [' '] (wordsAux l [])

/-- `re.sub(r"^` backslash-d `+` backslash-period backslash-s `*", "", name)`:
remove a leading digit run followed by a period and any following whitespace.
The digit run is maximal, since backtracking to a shorter run would place the
period on a digit. -/
def stripOrdinal (l : List Char) : List Char :=
  let ds := l.takeWhile Char.isDigit
  if ds.isEmpty then l
  else
    match l.drop ds.length with
    | '.' :: rest => rest.dropWhile pyIsSpace
    | _ => l

/-- `match.group(n)` within the cascade, where the group always captured. -/
def getGrp (m : RMatch) (n : ℕ) : List Char := (m.groupN n).getD []

/-- One pattern with the branch of the source `if 'x' in pattern` / `elif
'\$' in pattern` / `elif pattern.startswith(...)` dispatch that its pattern
string selects; the extraction yields the raw name and the quantity.  The
dispatch is static: patterns 1 and 2 contain a literal x; pattern 5 also
takes the first branch because the unit word "box" inside its pattern string
contains the letter x, so its unit group 3 is never read; patterns 3 and 4
take the dollar branch; pattern 6 takes the numbered-item branch.  Every
reachable branch sets the unit to "ea". -/
structure PatSpec where
  re : Re
  ext : RMatch → List Char × ℚ

def restaurant_patterns : List PatSpec :=
  [⟨pat1, fun m => (getGrp m 1, pyFloatL (getGrp m 2))⟩,
   ⟨pat2, fun m => (getGrp m 2, pyFloatL (getGrp m 1))⟩,
   ⟨pat3, fun m => (getGrp m 1, 1)⟩,
   ⟨pat4, fun m => (getGrp m 1, 1)⟩,
   ⟨pat5, fun m => (getGrp m 1, pyFloatL (getGrp m 2))⟩,
   ⟨pat6, fun m => (getGrp m 1, 1)⟩]

/-- The pattern loop over a line: first matching pattern whose cleaned name
survives the length/digits check wins; a failing name check falls through to
the next pattern (the `continue` in the source). -/
def cascade : List PatSpec → List Char → Option (List Char × ℚ)
  | [], _ => none
  | ps :: rest, line =>
    match reSearch ps.re line with
    | none => cascade rest line
    | some m =>
      let raw := (ps.ext m).1
      let nm := stripOrdinal (collapseAndStrip (pyStripL raw))
      if nm.length < 2 || isdigitL nm then cascade rest line
      else some (nm, (ps.ext m).2)

/-- Does the line contain any item or restaurant-item keyword? -/
def itemKeywordHit (line : String) : Bool :=
  (ITEM_KEYWORDS ++ RESTAURANT_ITEM_KEYWORDS).any (fun kw => pyIn kw (pyLower line))

/-- `re.match(r"^` backslash-d `+(?:` backslash-period backslash-d `+)?$", part)`. -/
def isNumericToken (s : String) : Bool :=
  let l := s.toList
  let ds := l.takeWhile Char.isDigit
  !ds.isEmpty &&
    (match l.drop ds.length with
     | [] => true
     | '.' :: fr => !fr.isEmpty && fr.all Char.isDigit
     | _ => false)

/-- The generic keyword extraction (lines 598-625): scan the whitespace-split
tokens for the first purely numeric one whose surrounding tokens give a valid
name; on a failing name check the scan continues with later tokens. -/
def genericGo (vendor : String) (price : Option String) (parts : List String) :
    ℕ → List String → Option CandidateItem
  | _, [] => none
  | i, part :: rest =>
    if isNumericToken part then
      let name_parts := if 0 < i then parts.take i else parts.drop (i + 1)
      if name_parts.isEmpty then genericGo vendor price parts (i + 1) rest
      else
        let nm := stripOrdinal (collapseAndStrip (String.intercalate " " name_parts).toList)
        if 2 ≤ nm.length && !isdigitL nm then
          some ⟨String.mk nm, pyFloat part, "ea", vendor, price, 3/5⟩
        else genericGo vendor price parts (i + 1) rest
    else genericGo vendor price parts (i + 1) rest

/-- Processing of one surviving line (the body of the loop at lines 527-648):
price search, pattern cascade (confidence 0.8), generic keyword extraction
(confidence 0.6), whole-line fallback (confidence 0.5). -/
def processLine (vendor : String) (line : String) : List CandidateItem :=
  let lc := line.toList
  let price : Option String := (reSearch priceRe lc).map (fun m => String.mk m.matched)
  match cascade restaurant_patterns lc with
  | some nq => [⟨String.mk nq.1, nq.2, "ea", vendor, price, 4/5⟩]
  | none =>
    if itemKeywordHit line then
      let parts := pySplitWs line
      if 2 ≤ parts.length then
        match genericGo vendor price parts 0 parts with
        | some item => [item]
        | none =>
          if 3 ≤ line.length then
            let nm := stripOrdinal (collapseAndStrip lc)
            if 2 ≤ nm.length && !isdigitL nm then
              [⟨String.mk nm, 1, "ea", vendor, price, 1/2⟩]
            else []
          else []
      else []
    else []

/-! ## `filter_item_lines` (lines 423-470) -/

def nonItemHit (line : String) : Bool :=
  NON_ITEM_KEYWORDS.any (fun kw => pyIn kw (pyLower line))

def definiteHit (line : String) : Bool :=
  DEFINITE_NON_ITEM_KEYWORDS.any (fun kw => pyIn kw (pyLower line))

/-- The per-line keep decision, on the already-stripped line, checks in
source order. -/
def keepLine (l : String) : Bool :=
  if l == "" then false
  else if l.length < 3 then false
  else if (reSearch phoneRe l.toList).isSome then false
  else if (reSearch addressRe l.toList).isSome then false
  else if definiteHit l then false
  else if nonItemHit l && !itemKeywordHit l then false
  else itemKeywordHit l || (reSearch filterUnitRe l.toList).isSome ||
       (reSearch priceRe l.toList).isSome

def filter_item_lines (lines : List String) : List String :=
  lines.filterMap (fun line =>
    let l := pyStrip line
    if keepLine l then some l else none)

/-! ## `extract_vendor_info` (lines 670-733) -/

structure VendorInfo where
  name : String
  invoice_number : String
deriving DecidableEq, Repr

def vendor_keywords : List String :=
  ["vendor", "supplier", "restaurant", "cafe", "from", "bill from",
   "invoice from", "company", "business", "store", "shop", "market"]

def invoice_keywords : List String :=
  ["invoice", "invoice #", "invoice no", "invoice number",
   "receipt", "receipt #", "order", "order #"]

/-- The alphanumeric-plus-hyphen token regex of line 721. -/
def invTokRe : Re := rPlus (.pred (fun c => c.isAlpha || c.isDigit || c == '-'))

/-- The vendor-keyword loop on one line: the keyword test is on the lowercased
line but the split is on the original line (case sensitive); text after the
keyword wins, else a non-empty immediate next line; if neither, the loop goes
on to the next keyword. -/
def vendorKwLoop (lines : List String) (i : ℕ) (line ll : String) :
    List String → Option String
  | [] => none
  | kw :: kws =>
    if pyIn kw ll then
      match pySplitOnce kw line with
      | some pq =>
        if pyStrip pq.2 ≠ "" then some (pyStrip pq.2)
        else if i < lines.length - 1 ∧ pyStrip (lines.getD (i + 1) "") ≠ "" then
          some (pyStrip (lines.getD (i + 1) ""))
        else vendorKwLoop lines i line ll kws
      | none =>
        if i < lines.length - 1 ∧ pyStrip (lines.getD (i + 1) "") ≠ "" then
          some (pyStrip (lines.getD (i + 1) ""))
        else vendorKwLoop lines i line ll kws
    else vendorKwLoop lines i line ll kws

/-- The invoice-keyword loop on one line: `some r` means the loop broke, with
`r` the new invoice number if the token regex matched. -/
def invoiceKwLoop (line ll : String) : List String → Option (Option String)
  | [] => none
  | kw :: kws =>
    if pyIn kw ll then
      match pySplitOnce kw line with
      | some pq =>
        if pyStrip pq.2 ≠ "" then
          some ((reSearch invTokRe pq.2.toList).map (fun m => String.mk m.matched))
        else invoiceKwLoop line ll kws
      | none => invoiceKwLoop line ll kws
    else invoiceKwLoop line ll kws

/-- One iteration of the `for i, line in enumerate(lines[:10])` loop: the
vendor keyword loop may overwrite the name, then the invoice keyword loop may
overwrite the invoice number. -/
def viStep (lines : List String) (vi : VendorInfo) (p : ℕ × String) : VendorInfo :=
  let ll := pyLower p.2
  let vi1 := match vendorKwLoop lines p.1 p.2 ll vendor_keywords with
    | some nm => { vi with name := nm }
    | none => vi
  match invoiceKwLoop p.2 ll invoice_keywords with
  | some (some num) => { vi1 with invoice_number := num }
  | _ => vi1

def extract_vendor_info (lines : List String) : VendorInfo :=
  let vi := ((lines.take 10).enum).foldl (viStep lines) ⟨"", ""⟩
  if vi.name = "" then
    match (lines.take 5).find? (fun l =>
        pyStrip l != "" && !invoice_keywords.any (fun kw => pyIn kw (pyLower l))) with
    | some l => { vi with name := pyStrip l }
    | none => vi
  else vi

/-! ## Deduplication (lines 650-668) and the full pipeline -/

/-- The dedup key `item['name'].lower().strip()`. -/
def normKey (it : CandidateItem) : String := pyStrip (pyLower it.name)

/-- Stable descending insertion: the new element goes before the first kept
element whose confidence it reaches, so elements of equal confidence keep
their prior relative order, as Python `list.sort` guarantees. -/
def dedupInsert (x : CandidateItem) : List CandidateItem → List CandidateItem
  | [] => [x]
  | y :: ys => if y.confidence ≤ x.confidence then x :: y :: ys else y :: dedupInsert x ys

/-- `potential_items.sort(key=lambda x: x.get('confidence', 0), reverse=True)`:
a stable sort, descending by confidence. -/
def sortByConfDesc : List CandidateItem → List CandidateItem
  | [] => []
  | x :: xs => dedupInsert x (sortByConfDesc xs)

/-- The walk over the sorted list keeping the first occurrence of each
normalized name (`seen_names` is the Python set). -/
def dedupWalk : List String → List CandidateItem → List CandidateItem
  | _, [] => []
  | seen, x :: xs =>
    if normKey x ∈ seen then dedupWalk seen xs
    else x :: dedupWalk (normKey x :: seen) xs

def dedupe (l : List CandidateItem) : List CandidateItem :=
  dedupWalk [] (sortByConfDesc l)

/-- The `text_data` argument of `parse_invoice_items`: a dict with a
`full_text` entry, a plain string, or Python `None`. -/
inductive OcrInput where
  | py_none : OcrInput
  | str : String → OcrInput
  | dict : String → OcrInput
deriving DecidableEq, Repr

/-- The body of `parse_invoice_items` once `full_text` is a string: split on
newlines, filter, extract the vendor, run the per-line extraction, dedupe. -/
def parseCore (full_text : String) : List CandidateItem :=
  let lines := full_text.splitOn "\n"
  let item_lines := filter_item_lines lines
  let vendor_name := (extract_vendor_info lines).name
  let potential_items := item_lines.flatMap (processLine vendor_name)
  dedupe potential_items

/-- `parse_invoice_items(text_data)`.  A dict input reads its `full_text`
entry; a string is used directly; on `None` the attribute access
`full_text.split('\n')` raises, modelled as an error value. -/
def parse_invoice_items : OcrInput → Except String (List CandidateItem)
  | .py_none => .error "AttributeError: NoneType has no attribute split"
  | .str s => .ok (parseCore s)
  | .dict ft => .ok (parseCore ft)

/-! ## Score facts -/

theorem simScore_nonneg (pn inn : String) : 0 ≤ simScore pn inn := by
  unfold simScore
  split_ifs with h1 h2
  · norm_num
  · norm_num
  · dsimp only
    split_ifs with h3
    · norm_num
    · positivity

theorem simScore_le_one (pn inn : String) : simScore pn inn ≤ 1 := by
  unfold simScore
  split_ifs with h1 h2
  · norm_num
  · norm_num
  · dsimp only
    split_ifs with h3
    · norm_num
    · set A := (pySplitWs pn).toFinset
      set B := (pySplitWs inn).toFinset
      have hsub : A ∩ B ⊆ A := Finset.inter_subset_left
      have hcard : (A ∩ B).card ≤ max A.card B.card :=
        le_trans (Finset.card_le_card hsub) (le_max_left _ _)
      have hpos : 0 < max A.card B.card := by
        rcases Finset.nonempty_of_ne_empty h3 with ⟨w, hw⟩
        have : 0 < A.card := Finset.card_pos.mpr ⟨w, (Finset.mem_inter.mp hw).1⟩
        exact lt_of_lt_of_le this (le_max_left _ _)
      rw [div_le_one (by exact_mod_cast hpos)]
      exact_mod_cast hcard

/-- The code gives score 1.0 exactly when the lowercased names are equal, or
when neither is a substring of the other but their whitespace word sets
coincide and are non-empty. -/
theorem simScore_eq_one_iff (pn inn : String) :
    simScore pn inn = 1 ↔
      (pn = inn ∨
        (pyIn pn inn = false ∧ pyIn inn pn = false ∧
         (pySplitWs pn).toFinset = (pySplitWs inn).toFinset ∧
         (pySplitWs pn).toFinset.Nonempty)) := by
  unfold simScore
  split_ifs with heq hsub
  · simp [heq]
  · have h12 : pyIn pn inn = true ∨ pyIn inn pn = true := Bool.or_eq_true _ _ |>.mp hsub
    constructor
    · intro h; norm_num at h
    · rintro (h | ⟨h1, h2, _, _⟩)
      · exact absurd h heq
      · rcases h12 with h | h
        · rw [h1] at h; exact absurd h (by simp)
        · rw [h2] at h; exact absurd h (by simp)
  · have h1 : pyIn pn inn = false :=
      (Bool.or_eq_false_iff.mp (Bool.not_eq_true _ |>.mp hsub)).1
    have h2 : pyIn inn pn = false :=
      (Bool.or_eq_false_iff.mp (Bool.not_eq_true _ |>.mp hsub)).2
    dsimp only
    split_ifs with hempty
    · constructor
      · intro h; norm_num at h
      · rintro (h | ⟨_, _, hAB, ⟨w, hw⟩⟩)
        · exact absurd h heq
        · have : w ∈ (pySplitWs pn).toFinset ∩ (pySplitWs inn).toFinset :=
            Finset.mem_inter.mpr ⟨hw, hAB ▸ hw⟩
          rw [hempty] at this
          exact absurd this (Finset.not_mem_empty w)
    · set A := (pySplitWs pn).toFinset with hA
      set B := (pySplitWs inn).toFinset with hB
      rcases Finset.nonempty_of_ne_empty hempty with ⟨w, hw⟩
      have hwA : w ∈ A := (Finset.mem_inter.mp hw).1
      have hmaxpos : 0 < max A.card B.card :=
        lt_of_lt_of_le (Finset.card_pos.mpr ⟨w, hwA⟩) (le_max_left _ _)
      have hcast : ((max A.card B.card : ℕ) : ℚ) ≠ 0 := by
        exact_mod_cast Nat.pos_iff_ne_zero.mp hmaxpos
      rw [div_eq_one_iff_eq hcast]
      constructor
      · intro h
        have hcards : (A ∩ B).card = max A.card B.card := by exact_mod_cast h
        have hAcard : A.card ≤ (A ∩ B).card := by
          rw [hcards]; exact le_max_left _ _
        have hBcard : B.card ≤ (A ∩ B).card := by
          rw [hcards]; exact le_max_right _ _
        have heqA : A ∩ B = A :=
          Finset.eq_of_subset_of_card_le Finset.inter_subset_left hAcard
        have heqB : A ∩ B = B :=
          Finset.eq_of_subset_of_card_le Finset.inter_subset_right hBcard
        right
        exact ⟨h1, h2, heqA.symm.trans heqB, ⟨w, hwA⟩⟩
      · rintro (h | ⟨_, _, hAB, _⟩)
        · exact absurd h heq
        · rw [← hAB, Finset.inter_self]
          simp

/-! ## Claim C1 -/

/-- C1, counterexample: the candidate name "green tea" and the inventory name
"tea green" have distinct normalized (lowercased, trimmed) names, yet the
matcher scores the pair 1.0 through the word-overlap rule, refuting the
claimed equivalence. -/
theorem c1_counterexample :
    simScore (pyLower "green tea") (pyLower "tea green") = 1 ∧
    pyStrip (pyLower "green tea") ≠ pyStrip (pyLower "tea green") := by
  constructor
  · with_unfolding_all rfl
  · with_unfolding_all decide

/-- C1, amended: the matcher scores a (candidate, inventory item) pair 1.0
exactly when the lowercased (untrimmed) names are equal, or when neither
lowercased name is a substring of the other and their whitespace word sets
are equal and non-empty (so reordered words also reach 1.0). -/
theorem c1_score_one_characterization (c : PotItem) (it : InvItem) :
    simScore (pyLower c.name) (pyLower it.name) = 1 ↔
      (pyLower c.name = pyLower it.name ∨
        (pyIn (pyLower c.name) (pyLower it.name) = false ∧
         pyIn (pyLower it.name) (pyLower c.name) = false ∧
         (pySplitWs (pyLower c.name)).toFinset = (pySplitWs (pyLower it.name)).toFinset ∧
         (pySplitWs (pyLower c.name)).toFinset.Nonempty)) :=
  simScore_eq_one_iff (pyLower c.name) (pyLower it.name)

/-! ## Best-match fold facts (for C2, C3, C4) -/

theorem bestStep_snd_mono (pn : String) (acc : Option InvItem × ℚ) (it : InvItem) :
    acc.2 ≤ (bestStep pn acc it).2 := by
  unfold bestStep
  dsimp only
  split_ifs with h
  · exact le_of_lt h
  · exact le_refl _

theorem bestOf_fold_snd_mono (pn : String) (inv : List InvItem)
    (acc : Option InvItem × ℚ) :
    acc.2 ≤ (inv.foldl (bestStep pn) acc).2 := by
  induction inv generalizing acc with
  | nil => exact le_refl _
  | cons it rest ih =>
    exact le_trans (bestStep_snd_mono pn acc it) (ih (bestStep pn acc it))

theorem bestOf_fold_ge_mem (pn : String) (inv : List InvItem)
    (acc : Option InvItem × ℚ) (it : InvItem) (hmem : it ∈ inv) :
    simScore pn (pyLower it.name) ≤ (inv.foldl (bestStep pn) acc).2 := by
  induction inv generalizing acc with
  | nil => cases hmem
  | cons hd rest ih =>
    rcases List.mem_cons.mp hmem with heq | hmem'
    · subst heq
      refine le_trans ?_ (bestOf_fold_snd_mono pn rest (bestStep pn acc it))
      unfold bestStep
      dsimp only
      split_ifs with h
      · exact le_refl _
      · exact le_of_not_lt h
    · exact ih (bestStep pn acc hd) hmem'

theorem bestOf_fold_snd_le (pn : String) (inv : List InvItem)
    (acc : Option InvItem × ℚ) (hacc : acc.2 ≤ 1) :
    (inv.foldl (bestStep pn) acc).2 ≤ 1 := by
  induction inv generalizing acc with
  | nil => exact hacc
  | cons it rest ih =>
    refine ih (bestStep pn acc it) ?_
    unfold bestStep
    dsimp only
    split_ifs with h
    · exact simScore_le_one pn (pyLower it.name)
    · exact hacc

theorem bestOf_fold_isSome (pn : String) (inv : List InvItem)
    (acc : Option InvItem × ℚ) (hacc : 0 < acc.2 → acc.1.isSome)
    (hpos : 0 < (inv.foldl (bestStep pn) acc).2) :
    (inv.foldl (bestStep pn) acc).1.isSome := by
  induction inv generalizing acc with
  | nil => exact hacc hpos
  | cons it rest ih =>
    refine ih (bestStep pn acc it) ?_ hpos
    intro hlt
    unfold bestStep at hlt ⊢
    dsimp only at hlt ⊢
    split_ifs with h
    · rfl
    · simp only [if_neg h] at hlt
      exact hacc hlt

/-! ## Claim C3 (amended theorem first, since C2 and C4 reuse nothing of it) -/

theorem matchOne_nil (p : PotItem) : matchOne p [] = none := by
  unfold matchOne bestOf
  norm_num

/-- C3, amended: matching any candidate list against an empty inventory
returns an empty mapping — no candidate receives an entry at all (the code
only creates an entry when the best score reaches 0.5, and there is no
`add_new` action or `None`-id entry in the code). -/
theorem c3_empty_inventory_empty_matches (pots : List PotItem) :
    match_items_to_inventory pots [] = [] := by
  unfold match_items_to_inventory
  rw [List.filterMap_eq_nil_iff]
  intro ip _
  rw [matchOne_nil]
  rfl

/-- C3, counterexample: a single candidate "Tomatoes" matched against the
empty inventory produces no result at all for that candidate, contradicting
the claimed `{inventoryItemId: None, score: 0, action: add_new}` entry. -/
theorem c3_counterexample :
    match_items_to_inventory [⟨"Tomatoes"⟩] [] = [] := by
  with_unfolding_all rfl

/-! ## Claim C4 -/

/-- C4, amended: when the lowercased (untrimmed) candidate name equals the
lowercased name of some inventory item, the pair scores 1.0 and the matcher
emits an entry for the candidate with score 1.0 (the code has no
`suggestedAction` field at all). -/
theorem c4_exact_lower_name_law (c : PotItem) (inv : List InvItem) (it : InvItem)
    (hmem : it ∈ inv) (heq : pyLower c.name = pyLower it.name) :
    simScore (pyLower c.name) (pyLower it.name) = 1 ∧
    ∃ e, matchOne c inv = some e ∧ e.score = 1 := by
  have hscore : simScore (pyLower c.name) (pyLower it.name) = 1 := by
    unfold simScore
    rw [if_pos heq]
  refine ⟨hscore, ?_⟩
  have hge : 1 ≤ (bestOf (pyLower c.name) inv).2 := by
    have h := bestOf_fold_ge_mem (pyLower c.name) inv (none, 0) it hmem
    rw [hscore] at h
    exact h
  have hle : (bestOf (pyLower c.name) inv).2 ≤ 1 :=
    bestOf_fold_snd_le (pyLower c.name) inv (none, 0) (by norm_num)
  have hb2 : (bestOf (pyLower c.name) inv).2 = 1 := le_antisymm hle hge
  have hsome : (bestOf (pyLower c.name) inv).1.isSome := by
    refine bestOf_fold_isSome (pyLower c.name) inv (none, 0) ?_ ?_
    · intro h; norm_num at h
    · show (0 : ℚ) < (bestOf (pyLower c.name) inv).2
      rw [hb2]; norm_num
  rcases Option.isSome_iff_exists.mp hsome with ⟨m, hm⟩
  refine ⟨⟨m.id, m.name, (bestOf (pyLower c.name) inv).2⟩, ?_, hb2⟩
  unfold matchOne
  rw [if_pos (by rw [hb2]; norm_num), hm]

/-- C4, counterexample: the candidate name "Tomatoes " (trailing space) and
the inventory name "Tomatoes" have equal lowercased-trimmed names — the
hypothesis of the claim — yet the pair scores 0.8 (substring rule), not 1.0,
because the matcher lowercases without stripping. -/
theorem c4_counterexample :
    pyStrip (pyLower "Tomatoes ") = pyStrip (pyLower "Tomatoes") ∧
    simScore (pyLower "Tomatoes ") (pyLower "Tomatoes") = 4/5 := by
  constructor
  · with_unfolding_all decide
  · with_unfolding_all rfl

theorem c4_witness :
    (⟨1, "Tomatoes"⟩ : InvItem) ∈ [(⟨1, "Tomatoes"⟩ : InvItem)] ∧
    pyLower (PotItem.mk "Tomatoes").name = pyLower (InvItem.mk 1 "Tomatoes").name ∧
    (simScore (pyLower (PotItem.mk "Tomatoes").name)
        (pyLower (InvItem.mk 1 "Tomatoes").name) = 1 ∧
     ∃ e, matchOne ⟨"Tomatoes"⟩ [⟨1, "Tomatoes"⟩] = some e ∧ e.score = 1) :=
  ⟨List.mem_singleton.mpr rfl, rfl,
   c4_exact_lower_name_law ⟨"Tomatoes"⟩ [⟨1, "Tomatoes"⟩] ⟨1, "Tomatoes"⟩
     (List.mem_singleton.mpr rfl) rfl⟩

/-! ## Claim C2 -/

/-- C2, counterexample: one candidate whose best score is low (here 0, no
common word with the only inventory item) receives no entry at all, so the
result does not have one entry per candidate. -/
theorem c2_counterexample :
    match_items_to_inventory [⟨"Olive Oil"⟩] [⟨1, "Tomatoes"⟩] = [] ∧
    (match_items_to_inventory [⟨"Olive Oil"⟩] [⟨1, "Tomatoes"⟩]).length ≠
      ([⟨"Olive Oil"⟩] : List PotItem).length := by
  have h : match_items_to_inventory [⟨"Olive Oil"⟩] [⟨1, "Tomatoes"⟩] = [] := by
    with_unfolding_all rfl
  refine ⟨h, ?_⟩
  rw [h]
  simp

/-- C2, amended: the matcher returns at most one entry per candidate — an
entry under index `i` exists exactly for those candidates whose per-candidate
result (best score at least 0.5) is an entry — so the result length is at
most the candidate count, not equal to it. -/
theorem c2_one_entry_per_qualifying_candidate (pots : List PotItem)
    (inv : List InvItem) :
    (match_items_to_inventory pots inv).length ≤ pots.length ∧
    ∀ i e, ((i, e) ∈ match_items_to_inventory pots inv ↔
      ∃ p, pots[i]? = some p ∧ matchOne p inv = some e) := by
  constructor
  · calc (match_items_to_inventory pots inv).length
        ≤ pots.enum.length := List.length_filterMap_le _ _
      _ = pots.length := List.enum_length
  · intro i e
    unfold match_items_to_inventory
    rw [List.mem_filterMap]
    constructor
    · rintro ⟨⟨j, p⟩, hmem, heq⟩
      rcases Option.map_eq_some'.mp heq with ⟨a, ha, hpair⟩
      have hj : j = i := congrArg Prod.fst hpair
      have hae : a = e := congrArg Prod.snd hpair
      subst hj; subst hae
      exact ⟨p, List.mk_mem_enum_iff_getElem?.mp hmem, ha⟩
    · rintro ⟨p, hp, hm⟩
      refine ⟨(i, p), List.mk_mem_enum_iff_getElem?.mpr hp, ?_⟩
      rw [hm]
      rfl

/-! ## Claim C5 -/

/-- C5, counterexample: on Python `None` the pipeline does not return an empty
list — the attribute access `full_text.split('\n')` raises, because the
`isinstance(text_data, dict)` branch leaves `full_text = None`. -/
theorem c5_counterexample :
    parse_invoice_items OcrInput.py_none =
      Except.error "AttributeError: NoneType has no attribute split" := rfl

/-- C5, amended: for empty input text the pipeline returns an empty candidate
list without error; only the `None` half of the claim fails. -/
theorem c5_empty_text_ok : parse_invoice_items (.str "") = .ok [] := by
  with_unfolding_all rfl

/-! ## Claim C6 -/

/-- C6, counterexample: on the single line "Tomatoes 5 kg $12.99" every
produced candidate (there is exactly one) differs from the claimed candidate
in name, quantity, unit and price alike, refuting the scenario. -/
theorem c6_counterexample :
    ((parse_invoice_items (.str "Tomatoes 5 kg $12.99")).toOption.getD []).all
      (fun c => decide (c.name ≠ "Tomatoes" ∧ c.quantity ≠ 5 ∧ c.unit ≠ "kg" ∧
        c.price ≠ some "$12.99")) = true := by
  with_unfolding_all rfl

/-- C6, amended: the line "Tomatoes 5 kg $12.99" yields one candidate with
name "Tomatoes 5 kg", quantity 1, unit "ea", price " 5" and confidence 0.8:
the "Name dollar-Price" pattern fires before the "Name Quantity Unit"
pattern and takes the whole prefix as the name with default quantity and
unit, and the price regex with its optional dollar sign captures the first
number " 5". -/
theorem c6_actual_extraction :
    parse_invoice_items (.str "Tomatoes 5 kg $12.99") =
      .ok [{ name := "Tomatoes 5 kg", quantity := 1, unit := "ea",
             vendor := "Tomatoes 5 kg $12.99", price := some " 5",
             confidence := 4/5 }] := by
  with_unfolding_all rfl

/-! ## Claim C7: dedup idempotence -/

/-- Descending confidence order between two candidates. -/
def ConfDesc (a b : CandidateItem) : Prop := b.confidence ≤ a.confidence

theorem mem_dedupInsert (z x : CandidateItem) (l : List CandidateItem) :
    z ∈ dedupInsert x l ↔ z = x ∨ z ∈ l := by
  induction l with
  | nil => simp [dedupInsert]
  | cons y ys ih =>
    unfold dedupInsert
    split_ifs with h
    · simp [or_comm, or_assoc, or_left_comm]
    · simp [ih, or_comm, or_assoc, or_left_comm]

theorem dedupInsert_pairwise (x : CandidateItem) (l : List CandidateItem)
    (h : l.Pairwise ConfDesc) : (dedupInsert x l).Pairwise ConfDesc := by
  induction l with
  | nil => simp [dedupInsert, List.pairwise_singleton]
  | cons y ys ih =>
    unfold dedupInsert
    rcases List.pairwise_cons.mp h with ⟨hy, hys⟩
    split_ifs with hle
    · refine List.pairwise_cons.mpr ⟨?_, h⟩
      intro z hz
      rcases List.mem_cons.mp hz with rfl | hz'
      · exact hle
      · exact le_trans (hy z hz') hle
    · refine List.pairwise_cons.mpr ⟨?_, ih hys⟩
      intro z hz
      rcases (mem_dedupInsert z x ys).mp hz with rfl | hz'
      · exact le_of_lt (lt_of_not_le hle)
      · exact hy z hz'

theorem mem_sortByConfDesc (z : CandidateItem) (l : List CandidateItem) :
    z ∈ sortByConfDesc l ↔ z ∈ l := by
  induction l with
  | nil => simp [sortByConfDesc]
  | cons x xs ih =>
    unfold sortByConfDesc
    rw [mem_dedupInsert, ih, List.mem_cons]

theorem sortByConfDesc_pairwise (l : List CandidateItem) :
    (sortByConfDesc l).Pairwise ConfDesc := by
  induction l with
  | nil => simp [sortByConfDesc]
  | cons x xs ih => exact dedupInsert_pairwise x (sortByConfDesc xs) ih

theorem sortByConfDesc_eq_self (l : List CandidateItem)
    (h : l.Pairwise ConfDesc) : sortByConfDesc l = l := by
  induction l with
  | nil => rfl
  | cons x xs ih =>
    rcases List.pairwise_cons.mp h with ⟨hx, hxs⟩
    unfold sortByConfDesc
    rw [ih hxs]
    cases xs with
    | nil => rfl
    | cons y ys =>
      unfold dedupInsert
      split_ifs with h2
      · rfl
      · exact absurd (hx y (List.mem_cons_self y ys)) h2

theorem dedupWalk_sublist (seen : List String) (l : List CandidateItem) :
    List.Sublist (dedupWalk seen l) l := by
  induction l generalizing seen with
  | nil => simp [dedupWalk]
  | cons x xs ih =>
    unfold dedupWalk
    split_ifs with h
    · exact List.Sublist.cons x (ih seen)
    · exact List.Sublist.cons₂ x (ih (normKey x :: seen))

theorem dedupWalk_not_seen (seen : List String) (l : List CandidateItem)
    (x : CandidateItem) (hx : x ∈ dedupWalk seen l) : normKey x ∉ seen := by
  induction l generalizing seen with
  | nil => simp [dedupWalk] at hx
  | cons y ys ih =>
    unfold dedupWalk at hx
    split_ifs at hx with h
    · exact ih seen hx
    · rcases List.mem_cons.mp hx with rfl | hx'
      · exact h
      · intro hmem
        exact ih (normKey y :: seen) hx' (List.mem_cons_of_mem _ hmem)

theorem dedupWalk_keys_pairwise (seen : List String) (l : List CandidateItem) :
    (dedupWalk seen l).Pairwise (fun a b => normKey a ≠ normKey b) := by
  induction l generalizing seen with
  | nil => simp [dedupWalk]
  | cons y ys ih =>
    unfold dedupWalk
    split_ifs with h
    · exact ih seen
    · refine List.pairwise_cons.mpr ⟨?_, ih (normKey y :: seen)⟩
      intro z hz heq
      exact dedupWalk_not_seen _ _ z hz (heq ▸ List.mem_cons_self _ _)

theorem dedupWalk_eq_self (seen : List String) (l : List CandidateItem)
    (h1 : ∀ x ∈ l, normKey x ∉ seen)
    (h2 : l.Pairwise (fun a b => normKey a ≠ normKey b)) :
    dedupWalk seen l = l := by
  induction l generalizing seen with
  | nil => rfl
  | cons x xs ih =>
    rcases List.pairwise_cons.mp h2 with ⟨hx, hxs⟩
    unfold dedupWalk
    rw [if_neg (h1 x (List.mem_cons_self x xs))]
    congr 1
    refine ih (normKey x :: seen) ?_ hxs
    intro y hy
    intro hmem
    rcases List.mem_cons.mp hmem with heq | hmem'
    · exact hx y hy heq.symm
    · exact h1 y (List.mem_cons_of_mem _ hy) hmem'

/-- C7: the Deduplicator is idempotent — deduplicating an already
deduplicated candidate list changes nothing, for every input list. -/
theorem c7_dedupe_idempotent (l : List CandidateItem) :
    dedupe (dedupe l) = dedupe l := by
  unfold dedupe
  have hsorted : (dedupWalk [] (sortByConfDesc l)).Pairwise ConfDesc :=
    (sortByConfDesc_pairwise l).sublist (dedupWalk_sublist [] (sortByConfDesc l))
  rw [sortByConfDesc_eq_self _ hsorted]
  exact dedupWalk_eq_self [] _ (fun x _ => List.not_mem_nil _)
    (dedupWalk_keys_pairwise [] _)

/-! ## Claim C8: the classifier never keeps the telephone line -/

theorem mem_filter_item_lines_keep (lines : List String) (l : String)
    (h : l ∈ filter_item_lines lines) : keepLine l = true := by
  unfold filter_item_lines at h
  rcases List.mem_filterMap.mp h with ⟨a, _, ha⟩
  dsimp only at ha
  split_ifs at ha with hk
  cases ha
  exact hk

/-- C8: for every input line list, the line "Tel: (555) 123-4567" is never in
the classifier output — the filter emits only stripped lines that pass the
keep decision, and that line fails it (its phone-number shape matches, and it
carries the definite non-item token "tel:"). -/
theorem c8_tel_line_never_kept (lines : List String) :
    (filter_item_lines lines).contains "Tel: (555) 123-4567" = false := by
  by_contra h
  have htrue : (filter_item_lines lines).contains "Tel: (555) 123-4567" = true :=
    Bool.not_eq_false _ |>.mp h
  have hmem : "Tel: (555) 123-4567" ∈ filter_item_lines lines :=
    List.elem_iff.mp htrue
  have hk := mem_filter_item_lines_keep lines _ hmem
  have hfalse : keepLine "Tel: (555) 123-4567" = false := by
    with_unfolding_all rfl
  rw [hk] at hfalse
  exact Bool.noConfusion hfalse

/-! ## Claim C9: vendor keyword occupying a whole line -/

theorem vendorKwLoop_none (lines : List String) (i : ℕ) (line ll : String)
    (kws : List String) (h : ∀ kw ∈ kws, pyIn kw ll = false) :
    vendorKwLoop lines i line ll kws = none := by
  induction kws with
  | nil => rfl
  | cons kw rest ih =>
    unfold vendorKwLoop
    rw [if_neg]
    · exact ih (fun k hk => h k (List.mem_cons_of_mem _ hk))
    · rw [h kw (List.mem_cons_self _ _)]
      simp

/-- C9, counterexample: with an empty line between the whole-line keyword
"vendor" and the text "Acme Corp", the next-line rule fires only on the
immediately following (empty) line and is abandoned, so the keyword scan finds
nothing and the fallback returns the keyword line itself — not "Acme Corp". -/
theorem c9_counterexample :
    (extract_vendor_info ["vendor", "", "Acme Corp"]).name = "vendor" ∧
    (extract_vendor_info ["vendor", "", "Acme Corp"]).name ≠ "Acme Corp" := by
  constructor
  · with_unfolding_all rfl
  · rw [show (extract_vendor_info ["vendor", "", "Acme Corp"]).name = "vendor" from
      by with_unfolding_all rfl]
    decide

theorem viStep_vendor_line (next : String) (h1 : pyStrip next ≠ "") :
    viStep ["vendor", next] ⟨"", ""⟩ (0, "vendor") = ⟨pyStrip next, ""⟩ := by
  unfold viStep
  dsimp only
  have hv : vendorKwLoop ["vendor", next] 0 "vendor" (pyLower "vendor")
      vendor_keywords = some (pyStrip next) := by
    have hll : pyLower "vendor" = "vendor" := by with_unfolding_all rfl
    rw [hll]
    show vendorKwLoop ["vendor", next] 0 "vendor" "vendor"
      ("vendor" :: ["supplier", "restaurant", "cafe", "from", "bill from",
        "invoice from", "company", "business", "store", "shop", "market"]) = _
    unfold vendorKwLoop
    rw [if_pos (show pyIn "vendor" "vendor" = true from by with_unfolding_all rfl)]
    rw [show pySplitOnce "vendor" "vendor" = some ("", "") from by
      with_unfolding_all rfl]
    dsimp only
    rw [if_neg (show ¬pyStrip "" ≠ "" from by with_unfolding_all decide)]
    rw [if_pos]
    · rfl
    · exact ⟨by norm_num, h1⟩
  rw [show pyLower "vendor" = "vendor" from by with_unfolding_all rfl] at hv ⊢
  rw [hv]
  rw [show invoiceKwLoop "vendor" "vendor" invoice_keywords = none from by
    with_unfolding_all rfl]

theorem viStep_name_stable (next : String) (vi : VendorInfo)
    (h2 : ∀ kw ∈ vendor_keywords, pyIn kw (pyLower next) = false) :
    (viStep ["vendor", next] vi (1, next)).name = vi.name := by
  unfold viStep
  dsimp only
  rw [vendorKwLoop_none _ _ _ _ _ h2]
  cases hres : invoiceKwLoop next (pyLower next) invoice_keywords with
  | none => rfl
  | some o => cases o with
    | none => rfl
    | some num => rfl

/-- C9, amended: when a vendor keyword occupies a whole scanned line, the
vendor name is taken from the immediately following line only — here that
line must itself be non-empty (the hypothesis excludes further vendor
keywords on it, which would overwrite the name); and on an empty document
both VendorInfo fields are the empty string, without error. -/
theorem c9_vendor_next_line_and_defaults (next : String)
    (h1 : pyStrip next ≠ "")
    (h2 : ∀ kw ∈ vendor_keywords, pyIn kw (pyLower next) = false) :
    (extract_vendor_info ["vendor", next]).name = pyStrip next ∧
    extract_vendor_info ([] : List String) = ⟨"", ""⟩ := by
  refine ⟨?_, rfl⟩
  unfold extract_vendor_info
  dsimp only
  have henum : ((["vendor", next].take 10).enum) = [(0, "vendor"), (1, next)] := rfl
  rw [henum, List.foldl_cons, List.foldl_cons, List.foldl_nil,
    viStep_vendor_line next h1]
  have hname := viStep_name_stable next ⟨pyStrip next, ""⟩ h2
  rw [if_neg]
  · exact hname
  · rw [hname]
    exact h1

theorem c9_witness :
    (pyStrip "Acme Corp" ≠ "" ∧
     ∀ kw ∈ vendor_keywords, pyIn kw (pyLower "Acme Corp") = false) ∧
    ((extract_vendor_info ["vendor", "Acme Corp"]).name = pyStrip "Acme Corp" ∧
     extract_vendor_info ([] : List String) = ⟨"", ""⟩) :=
  ⟨⟨by with_unfolding_all decide, by with_unfolding_all decide⟩,
   c9_vendor_next_line_and_defaults "Acme Corp" (by with_unfolding_all decide)
     (by with_unfolding_all decide)⟩

/-! ## Claim C10: confidence values -/

theorem dedupe_subset (l : List CandidateItem) (x : CandidateItem)
    (h : x ∈ dedupe l) : x ∈ l := by
  unfold dedupe at h
  have h2 : x ∈ sortByConfDesc l :=
    (dedupWalk_sublist [] (sortByConfDesc l)).subset h
  exact (mem_sortByConfDesc x l).mp h2

theorem genericGo_confidence (v : String) (pr : Option String)
    (parts : List String) (i : ℕ) (rest : List String) (it : CandidateItem)
    (h : genericGo v pr parts i rest = some it) : it.confidence = 3/5 := by
  induction rest generalizing i with
  | nil => exact Option.noConfusion h
  | cons p t ih =>
    unfold genericGo at h
    dsimp only at h
    split_ifs at h <;>
      first
        | (cases h; rfl)
        | exact ih (i + 1) h

theorem processLine_confidence (v line : String) (it : CandidateItem)
    (h : it ∈ processLine v line) :
    it.confidence = 4/5 ∨ it.confidence = 3/5 ∨ it.confidence = 1/2 := by
  unfold processLine at h
  dsimp only at h
  cases hcas : cascade restaurant_patterns line.toList with
  | some nq =>
    rw [hcas] at h
    dsimp only at h
    rcases List.mem_singleton.mp h with rfl
    left
    rfl
  | none =>
    rw [hcas] at h
    dsimp only at h
    by_cases h1 : itemKeywordHit line = true
    · rw [if_pos h1] at h
      by_cases h2 : 2 ≤ (pySplitWs line).length
      · rw [if_pos h2] at h
        cases hg : genericGo v
            ((reSearch priceRe line.toList).map (fun m => String.mk m.matched))
            (pySplitWs line) 0 (pySplitWs line) with
        | some item =>
          rw [hg] at h
          dsimp only at h
          rcases List.mem_singleton.mp h with rfl
          right; left
          exact genericGo_confidence _ _ _ _ _ _ hg
        | none =>
          rw [hg] at h
          dsimp only at h
          by_cases h3 : 3 ≤ line.length
          · rw [if_pos h3] at h
            by_cases h4 : (decide (2 ≤ (stripOrdinal (collapseAndStrip line.toList)).length)
                && !isdigitL (stripOrdinal (collapseAndStrip line.toList))) = true
            · rw [if_pos h4] at h
              rcases List.mem_singleton.mp h with rfl
              right; right
              rfl
            · rw [if_neg h4] at h
              exact absurd h (List.not_mem_nil it)
          · rw [if_neg h3] at h
            exact absurd h (List.not_mem_nil it)
      · rw [if_neg h2] at h
        exact absurd h (List.not_mem_nil it)
    · rw [if_neg h1] at h
      exact absurd h (List.not_mem_nil it)

/-- C10: every candidate produced by the extraction pipeline carries
confidence 0.8 (pattern match), 0.6 (generic keyword extraction) or 0.5
(whole-line fallback); in particular every confidence lies in [0, 1]. -/
theorem c10_confidence_values (s : String) (it : CandidateItem)
    (h : it ∈ parseCore s) :
    (it.confidence = 4/5 ∨ it.confidence = 3/5 ∨ it.confidence = 1/2) ∧
    0 ≤ it.confidence ∧ it.confidence ≤ 1 := by
  unfold parseCore at h
  dsimp only at h
  have h2 := dedupe_subset _ _ h
  rcases List.mem_flatMap.mp h2 with ⟨line, _, hline⟩
  have hc := processLine_confidence _ _ _ hline
  refine ⟨hc, ?_, ?_⟩ <;> rcases hc with h' | h' | h' <;> rw [h'] <;> norm_num

/-- The candidate that the pipeline extracts from "Tomatoes 5 kg $12.99"
(used as a concrete instantiation below). -/
def tomatoesItem : CandidateItem :=
  ⟨"Tomatoes 5 kg", 1, "ea", "Tomatoes 5 kg $12.99", some " 5", 4/5⟩

theorem c10_witness :
    tomatoesItem ∈ parseCore "Tomatoes 5 kg $12.99" ∧
    ((tomatoesItem.confidence = 4/5 ∨ tomatoesItem.confidence = 3/5 ∨
      tomatoesItem.confidence = 1/2) ∧
     0 ≤ tomatoesItem.confidence ∧ tomatoesItem.confidence ≤ 1) := by
  have hmem : tomatoesItem ∈ parseCore "Tomatoes 5 kg $12.99" := by
    rw [show parseCore "Tomatoes 5 kg $12.99" = [tomatoesItem] from by
      with_unfolding_all rfl]
    exact List.mem_singleton.mpr rfl
  exact ⟨hmem, c10_confidence_values _ _ hmem⟩

end OcrModule
